import Mathlib

/-!
Shallow embedding of `src/dns_mapper.py` (class `DNSMapper`).

The Python program issues DNS queries through `dns.resolver.Resolver` and
`dns.reversename`.  We model that external resolver capability as an explicit
`Backend` record of pure query functions, each returning either a list of raw
answers or one failure from the taxonomy the code catches
(`dns.resolver.NXDOMAIN`, `dns.resolver.NoAnswer`, `dns.resolver.Timeout`,
`dns.exception.DNSException`).  The mutable `self.results` dictionary becomes
an explicit `Results` record threaded through the methods; Python dictionaries
(`results['neighbors']`, `found_subdomains`, the per-base neighbor map) become
association lists with insert-or-overwrite semantics (`dictInsert`), which is
exactly a Python dict's observable behaviour including insertion order.
Machine-level details: IPv4 arithmetic (`ipaddress.IPv4Address(ip) + offset`)
is modelled on `Int` with the explicit bound `0 ≤ v + o < 2^32`, matching the
`AddressValueError` the library raises outside that range.
-/

/-- Failure taxonomy of the resolver backend, mirroring the exception tuple
caught by every lookup in `dns_mapper.py`: `nxdomain` for
`dns.resolver.NXDOMAIN`, `noAnswer` for `dns.resolver.NoAnswer`, `timeout`
for `dns.resolver.Timeout`, `protocolError` for any other
`dns.exception.DNSException`. -/
inductive DnsFail where
  | nxdomain
  | noAnswer
  | timeout
  | protocolError
  deriving DecidableEq, Repr

/-- The external resolver capability.  `queryA name` models
`resolver.resolve(name, 'A')` returning the list of `str(rdata)` values;
`queryMX` returns the raw `str(rdata.exchange)` strings (possibly with a
trailing root dot); `queryNS` the raw `str(rdata.target)` strings; `queryTXT`
returns, per TXT record, the list of its already-decoded character-string
segments (`rdata.strings`, with `bytes.decode` modelled as the identity on
text); `queryPTR addr` models resolving the reverse name of `addr` with
record type PTR, keyed by the address string (the reverse-name conversion
`dns.reversename.from_address` is a bijection on valid addresses). -/
structure Backend where
  queryA : String → Except DnsFail (List String)
  queryMX : String → Except DnsFail (List String)
  queryNS : String → Except DnsFail (List String)
  queryTXT : String → Except DnsFail (List (List String))
  queryPTR : String → Except DnsFail (List String)

/-- The `self.results` dictionary.  Each field is `none` when the
corresponding key is absent from the dict and `some v` when present with
value `v`. -/
structure Results where
  A : Option (List String)
  MX : Option (List String)
  NS : Option (List String)
  TXT : Option (List String)
  neighbors : Option (List (String × List (String × List String)))
  subdomains : Option (List (String × List String))
  deriving DecidableEq, Repr

/-- A `DNSMapper` instance: the immutable target domain plus the mutable
`results` dictionary. -/
structure Mapper where
  domain : String
  results : Results
  deriving DecidableEq, Repr

/-- `self.results = {}` in `DNSMapper.__init__`. -/
def emptyResults : Results := ⟨none, none, none, none, none, none⟩

/-- `DNSMapper(domain)`. -/
def mkMapper (domain : String) : Mapper := ⟨domain, emptyResults⟩

/-- Python's `s.rstrip('.')`: remove every trailing `.` character. -/
def rstripDot (s : String) : String :=
  String.mk ((s.data.reverse.dropWhile (fun c => c == '.')).reverse)

/-- Whether a string ends in a `.` character. -/
def hasTrailingDot (s : String) : Bool :=
  s.data.getLast? == some '.'

/-- One dotted-quad octet, with the validation `ipaddress.IPv4Address`
performs per part: non-empty, all ASCII digits, at most 3 characters, no
leading zero, value at most 255. -/
def parseOctet (cs : List Char) : Option Nat :=
  if cs.isEmpty then none
  else if !(cs.all fun c => c.isDigit) then none
  else if 3 < cs.length then none
  else if 1 < cs.length && cs.head? == some '0' then none
  else
    let n := cs.foldl (fun a c => 10 * a + (c.toNat - 48)) 0
    if n ≤ 255 then some n else none

/-- Split a character list on the `.` separator (Python's `s.split('.')`,
which `ipaddress` uses to cut a dotted quad into its four parts); `cur` is
the part accumulated so far, in reverse. -/
def splitDot (cur : List Char) : List Char → List (List Char)
  | [] => [cur.reverse]
  | c :: rest => if c == '.' then cur.reverse :: splitDot [] rest else splitDot (c :: cur) rest

/-- `ipaddress.IPv4Address(s)`: parse a dotted-quad string to its 32-bit
numeric value, or `none` where the constructor raises `AddressValueError`. -/
def parseIPv4 (s : String) : Option Nat :=
  match (splitDot [] s.data).map parseOctet with
  | [some a, some b, some c, some d] => some (((a * 256 + b) * 256 + c) * 256 + d)
  | _ => none

/-- `str(ipaddress.IPv4Address(v))`: dotted-quad rendering of a 32-bit
numeric value. -/
def ipToString (v : Nat) : String :=
  toString (v / 16777216 % 256) ++ "." ++ toString (v / 65536 % 256) ++ "."
    ++ toString (v / 256 % 256) ++ "." ++ toString (v % 256)

/-- Python's `range(-r, r + 1)` of offsets used by `scan_ip_neighbors`. -/
def offsets (r : Nat) : List Int :=
  (List.range (2 * r + 1)).map (fun (i : Nat) => (i : Int) - (r : Int))

/-- Python dict assignment `d[k] = v` on an association list: overwrite in
place when the key is present (a dict keeps the original insertion position),
append otherwise. -/
def dictInsert {β : Type} (d : List (String × β)) (k : String) (v : β) :
    List (String × β) :=
  match d with
  | [] => [(k, v)]
  | (k₀, v₀) :: rest => if k₀ = k then (k, v) :: rest else (k₀, v₀) :: dictInsert rest k v

/-- Python dict lookup `d[k]` (as an option). -/
def lookupD {β : Type} (d : List (String × β)) (k : String) : Option β :=
  match d with
  | [] => none
  | (k₀, v₀) :: rest => if k₀ = k then some v₀ else lookupD rest k

/-- The keys of an association list, in order. -/
def keysD {β : Type} (d : List (String × β)) : List String :=
  d.map Prod.fst

/-- `DNSMapper.resolve_a`: on success store the addresses under key `'A'` and
return them; on any caught resolver failure return `[]` leaving `results`
untouched. -/
def resolve_a (b : Backend) (m : Mapper) : Mapper × List String :=
  match b.queryA m.domain with
  | .ok answers =>
      let ips := answers
      ({ m with results := { m.results with A := some ips } }, ips)
  | .error _ => (m, [])

/-- `DNSMapper.resolve_mx`: `str(rdata.exchange).rstrip('.')` per answer,
stored under key `'MX'`. -/
def resolve_mx (b : Backend) (m : Mapper) : Mapper × List String :=
  match b.queryMX m.domain with
  | .ok answers =>
      let mx_servers := answers.map rstripDot
      ({ m with results := { m.results with MX := some mx_servers } }, mx_servers)
  | .error _ => (m, [])

/-- `DNSMapper.resolve_ns`: `str(rdata.target).rstrip('.')` per answer,
stored under key `'NS'`. -/
def resolve_ns (b : Backend) (m : Mapper) : Mapper × List String :=
  match b.queryNS m.domain with
  | .ok answers =>
      let nameservers := answers.map rstripDot
      ({ m with results := { m.results with NS := some nameservers } }, nameservers)
  | .error _ => (m, [])

/-- `DNSMapper.resolve_txt`: per TXT record, join its segments into one
string (`''.join(...)` over `rdata.strings`), stored under key `'TXT'`. -/
def resolve_txt (b : Backend) (m : Mapper) : Mapper × List String :=
  match b.queryTXT m.domain with
  | .ok answers =>
      let txt_records := answers.map (fun segs => String.join segs)
      ({ m with results := { m.results with TXT := some txt_records } }, txt_records)
  | .error _ => (m, [])

/-- `DNSMapper.reverse_dns`: convert the address to its reverse name
(raising inside the same `try` when the address is invalid, hence the
`parseIPv4` guard), resolve PTR, strip trailing root dots.  Any caught
failure yields `[]`.  Pure: it never touches `results`. -/
def reverse_dns (b : Backend) (ip : String) : List String :=
  match parseIPv4 ip with
  | none => []
  | some _ =>
      match b.queryPTR ip with
      | .ok answers => answers.map rstripDot
      | .error _ => []

/-- The `for offset in range(-range_size, range_size + 1)` loop body of
`DNSMapper.scan_ip_neighbors`: skip offset 0; skip an offset whose sum with
the base value leaves the 32-bit range (`AddressValueError` from
`ip_obj + offset`, caught by the inner handler); otherwise reverse-resolve
the neighbor and record it only when the result is non-empty. -/
def sweepLoop (b : Backend) (v : Nat) (acc : List (String × List String)) :
    List Int → List (String × List String)
  | [] => acc
  | o :: rest =>
      if o = 0 then sweepLoop b v acc rest
      else if 0 ≤ (v : Int) + o ∧ (v : Int) + o < 4294967296 then
        let neighbor_ip := ipToString ((v : Int) + o).toNat
        let rev := reverse_dns b neighbor_ip
        if rev.isEmpty then sweepLoop b v acc rest
        else sweepLoop b v (dictInsert acc neighbor_ip rev) rest
      else sweepLoop b v acc rest

/-- `DNSMapper.scan_ip_neighbors`: an unparsable base address
(`AddressValueError` from `IPv4Address(ip)`, caught by the outer handler)
yields the empty dict; otherwise run the offset loop.  Pure: it never
touches `results`. -/
def scan_ip_neighbors (b : Backend) (ip : String) (range_size : Nat) :
    List (String × List String) :=
  match parseIPv4 ip with
  | none => []
  | some v => sweepLoop b v [] (offsets range_size)

/-- Instrumentation twin of `sweepLoop`: the addresses on which it invokes
`reverse_dns`, in order. -/
def probesLoop (v : Nat) : List Int → List String
  | [] => []
  | o :: rest =>
      if o = 0 then probesLoop v rest
      else if 0 ≤ (v : Int) + o ∧ (v : Int) + o < 4294967296 then
        ipToString ((v : Int) + o).toNat :: probesLoop v rest
      else probesLoop v rest

/-- Instrumentation twin of `scan_ip_neighbors`: the addresses on which it
invokes `reverse_dns`, in order. -/
def neighborProbes (ip : String) (range_size : Nat) : List String :=
  match parseIPv4 ip with
  | none => []
  | some v => probesLoop v (offsets range_size)

/-- The literal candidate dictionary of `DNSMapper.enumerate_subdomains`. -/
def common_subdomains : List String :=
  ["www", "mail", "webmail", "smtp", "pop", "imap",
   "ftp", "api", "admin", "blog", "dev", "test",
   "preprod", "staging", "prod", "production",
   "extranet", "intranet", "intra", "vpn",
   "remote", "portal", "crm", "erp",
   "mobile", "app", "cdn", "static",
   "shop", "store", "payment", "secure"]

/-- The `for sub in common_subdomains` loop of
`DNSMapper.enumerate_subdomains`, parametrised by the candidate list: form
`f"{sub}.{self.domain}"`, resolve A, keep the candidate on success, skip it
on any caught failure. -/
def enumLoop (b : Backend) (domain : String) (acc : List (String × List String)) :
    List String → List (String × List String)
  | [] => acc
  | sub :: rest =>
      let subdomain := sub ++ "." ++ domain
      match b.queryA subdomain with
      | .ok answers => enumLoop b domain (dictInsert acc subdomain answers) rest
      | .error _ => enumLoop b domain acc rest

/-- `DNSMapper.enumerate_subdomains`. -/
def enumerate_subdomains (b : Backend) (m : Mapper) : List (String × List String) :=
  enumLoop b m.domain [] common_subdomains

/-- The `for ip in self.results['A']` loop of `DNSMapper.scan`: store each
base address's neighbor sweep (radius 5) under that address's key. -/
def neighborsLoop (b : Backend)
    (acc : List (String × List (String × List String))) :
    List String → List (String × List (String × List String))
  | [] => acc
  | ip :: rest => neighborsLoop b (dictInsert acc ip (scan_ip_neighbors b ip 5)) rest

/-- `DNSMapper.scan`: the four record lookups in order, then — only when key
`'A'` is present with a non-empty (truthy) list — the neighbor sweeps, then
the subdomain enumeration stored unconditionally under `'subdomains'`. -/
def scan (b : Backend) (m : Mapper) : Mapper :=
  let m1 := (resolve_a b m).1
  let m2 := (resolve_mx b m1).1
  let m3 := (resolve_ns b m2).1
  let m4 := (resolve_txt b m3).1
  let m5 :=
    match m4.results.A with
    | some ips =>
        if ips.isEmpty then m4
        else
          { m4 with results :=
              { m4.results with neighbors := some (neighborsLoop b [] ips) } }
    | none => m4
  { m5 with results :=
      { m5.results with subdomains := some (enumerate_subdomains b m5) } }

/-- A backend on which every query fails, each kind with a different member
of the failure taxonomy. -/
def failB : Backend :=
  ⟨fun _ => .error .nxdomain, fun _ => .error .noAnswer,
   fun _ => .error .timeout, fun _ => .error .protocolError,
   fun _ => .error .nxdomain⟩

/-- A backend realising the end-to-end scenario: the target resolves to one
address, one mail exchange (raw name with trailing root dot), one nameserver
and one text record; every other name (so every subdomain candidate) and
every reverse lookup fails. -/
def e2eB : Backend :=
  ⟨fun n => if n = "example.com" then .ok ["203.0.113.5"] else .error .nxdomain,
   fun n => if n = "example.com" then .ok ["mail.example.com."] else .error .nxdomain,
   fun n => if n = "example.com" then .ok ["ns1.example.com."] else .error .nxdomain,
   fun n => if n = "example.com" then .ok [["v=spf1 ~all"]] else .error .nxdomain,
   fun _ => .error .nxdomain⟩

/-- A backend on which only `www.example.com` has an address record. -/
def c4B : Backend :=
  ⟨fun n => if n = "www.example.com" then .ok ["203.0.113.5"] else .error .nxdomain,
   fun _ => .error .nxdomain, fun _ => .error .nxdomain,
   fun _ => .error .nxdomain, fun _ => .error .nxdomain⟩

/-- A backend whose only answer is one TXT record split into three
character-string segments. -/
def txtB : Backend :=
  ⟨fun _ => .error .nxdomain, fun _ => .error .nxdomain, fun _ => .error .nxdomain,
   fun _ => .ok [["v=spf1 ", "include:_spf.example.com ", "~all"]],
   fun _ => .error .nxdomain⟩
/-- Effect of one record lookup on its `results` slot: overwrite on success
(after normalising with `f`), keep the previous contents on failure. -/
def updOptWith (f : List String → List String) (q : Except DnsFail (List String))
    (x : Option (List String)) : Option (List String) :=
  match q with
  | .ok l => some (f l)
  | .error _ => x

/-- Effect of the TXT lookup on its `results` slot. -/
def updTxt (q : Except DnsFail (List (List String))) (x : Option (List String)) :
    Option (List String) :=
  match q with
  | .ok l => some (l.map (fun segs => String.join segs))
  | .error _ => x

/-- Effect of the neighbor-sweep phase of `scan` on the `'neighbors'` slot,
as a function of the `'A'` slot after the record lookups. -/
def updNb (b : Backend) (a : Option (List String))
    (x : Option (List (String × List (String × List String)))) :
    Option (List (String × List (String × List String))) :=
  match a with
  | some ips => if ips.isEmpty then x else some (neighborsLoop b [] ips)
  | none => x

theorem mem_keysD_dictInsert {β : Type} (d : List (String × β)) (k a : String) (v : β) :
    a ∈ keysD (dictInsert d k v) ↔ a = k ∨ a ∈ keysD d := by
  induction d with
  | nil => simp [dictInsert, keysD]
  | cons p rest ih =>
      obtain ⟨k₀, v₀⟩ := p
      by_cases h : k₀ = k
      · subst h
        simp [dictInsert, keysD]
      · simp [dictInsert, keysD, h] at ih ⊢
        tauto

theorem lookupD_dictInsert {β : Type} (d : List (String × β)) (k a : String) (v : β) :
    lookupD (dictInsert d k v) a = if a = k then some v else lookupD d a := by
  induction d with
  | nil =>
      by_cases h : a = k
      · subst h
        simp [dictInsert, lookupD]
      · simp [dictInsert, lookupD, h, Ne.symm h]
  | cons p rest ih =>
      obtain ⟨k₀, v₀⟩ := p
      by_cases h : k₀ = k
      · subst h
        by_cases ha : a = k₀
        · subst ha
          simp [dictInsert, lookupD]
        · simp [dictInsert, lookupD, ha, Ne.symm ha]
      · by_cases ha : k₀ = a
        · have hak : ¬a = k := fun hh => h (ha.trans hh)
          simp [dictInsert, lookupD, h, ha, hak]
        · simp [dictInsert, lookupD, h, ha, ih]

theorem mem_offsets (r : Nat) (o : Int) :
    o ∈ offsets r ↔ -(r : Int) ≤ o ∧ o ≤ (r : Int) := by
  unfold offsets
  constructor
  · intro h
    obtain ⟨i, hi, hfe⟩ := List.mem_map.mp h
    have hi' : i < 2 * r + 1 := List.mem_range.mp hi
    subst hfe
    constructor <;> omega
  · rintro ⟨h1, h2⟩
    refine List.mem_map.mpr ⟨(o + r).toNat, List.mem_range.mpr (by omega), by omega⟩

theorem mem_probesLoop (v : Nat) (l : List Int) (a : String) :
    a ∈ probesLoop v l ↔
      ∃ o ∈ l, o ≠ 0 ∧ 0 ≤ (v : Int) + o ∧ (v : Int) + o < 4294967296 ∧
        a = ipToString ((v : Int) + o).toNat := by
  induction l with
  | nil => simp [probesLoop]
  | cons o rest ih =>
      by_cases h0 : o = 0
      · subst h0
        simp [probesLoop, ih]
      · by_cases hr : 0 ≤ (v : Int) + o ∧ (v : Int) + o < 4294967296
        · rw [show probesLoop v (o :: rest)
              = ipToString ((v : Int) + o).toNat :: probesLoop v rest by
                simp [probesLoop, h0, hr]]
          simp only [List.mem_cons, ih]
          constructor
          · rintro (rfl | ⟨o', ho', h⟩)
            · exact ⟨o, Or.inl rfl, h0, hr.1, hr.2, rfl⟩
            · exact ⟨o', Or.inr ho', h⟩
          · rintro ⟨o', rfl | ho'', h⟩
            · exact Or.inl h.2.2.2
            · exact Or.inr ⟨o', ho'', h⟩
        · rw [show probesLoop v (o :: rest) = probesLoop v rest by
                simp [probesLoop, h0, hr]]
          rw [ih]
          simp only [List.mem_cons]
          constructor
          · rintro ⟨o', ho', h⟩
            exact ⟨o', Or.inr ho', h⟩
          · rintro ⟨o', rfl | ho'', h⟩
            · exact absurd ⟨h.2.1, h.2.2.1⟩ hr
            · exact ⟨o', ho'', h⟩

theorem mem_keysD_sweepLoop (b : Backend) (v : Nat) (l : List Int)
    (acc : List (String × List String)) (a : String) :
    a ∈ keysD (sweepLoop b v acc l) ↔
      a ∈ keysD acc ∨ (a ∈ probesLoop v l ∧ reverse_dns b a ≠ []) := by
  induction l generalizing acc with
  | nil => simp [sweepLoop, probesLoop]
  | cons o rest ih =>
      by_cases h0 : o = 0
      · subst h0
        rw [show sweepLoop b v acc (0 :: rest) = sweepLoop b v acc rest by
              simp [sweepLoop]]
        rw [show probesLoop v (0 :: rest) = probesLoop v rest by simp [probesLoop]]
        exact ih acc
      · by_cases hr : 0 ≤ (v : Int) + o ∧ (v : Int) + o < 4294967296
        · rw [show probesLoop v (o :: rest)
              = ipToString ((v : Int) + o).toNat :: probesLoop v rest by
                simp [probesLoop, h0, hr]]
          by_cases he : (reverse_dns b (ipToString ((v : Int) + o).toNat)).isEmpty
          · have hee : reverse_dns b (ipToString ((v : Int) + o).toNat) = [] :=
              List.isEmpty_iff.mp he
            rw [show sweepLoop b v acc (o :: rest) = sweepLoop b v acc rest by
                  simp [sweepLoop, h0, hr, he]]
            rw [ih acc]
            by_cases ha : a = ipToString ((v : Int) + o).toNat
            · subst ha
              simp [hee]
            · simp [ha]
          · have hne : reverse_dns b (ipToString ((v : Int) + o).toNat) ≠ [] := by
              intro hh
              rw [hh] at he
              exact he rfl
            rw [show sweepLoop b v acc (o :: rest)
                = sweepLoop b v
                    (dictInsert acc (ipToString ((v : Int) + o).toNat)
                      (reverse_dns b (ipToString ((v : Int) + o).toNat))) rest by
                  simp [sweepLoop, h0, hr, he]]
            rw [ih]
            rw [mem_keysD_dictInsert]
            by_cases ha : a = ipToString ((v : Int) + o).toNat
            · subst ha
              simp [hne]
            · simp [ha]
        · rw [show sweepLoop b v acc (o :: rest) = sweepLoop b v acc rest by
                simp [sweepLoop, h0, hr]]
          rw [show probesLoop v (o :: rest) = probesLoop v rest by
                simp [probesLoop, h0, hr]]
          exact ih acc

theorem mem_keysD_scan_ip_neighbors (b : Backend) (ip : String) (r : Nat) (a : String) :
    a ∈ keysD (scan_ip_neighbors b ip r) ↔
      a ∈ neighborProbes ip r ∧ reverse_dns b a ≠ [] := by
  unfold scan_ip_neighbors neighborProbes
  cases h : parseIPv4 ip with
  | none => simp [keysD]
  | some v =>
      rw [mem_keysD_sweepLoop b v (offsets r) [] a]
      simp [keysD]

theorem sweepLoop_values (b : Backend) (v : Nat) (l : List Int)
    (acc : List (String × List String))
    (hacc : ∀ k rev, lookupD acc k = some rev → rev = reverse_dns b k ∧ rev ≠ []) :
    ∀ k rev, lookupD (sweepLoop b v acc l) k = some rev →
      rev = reverse_dns b k ∧ rev ≠ [] := by
  induction l generalizing acc with
  | nil =>
      intro k rev h
      exact hacc k rev h
  | cons o rest ih =>
      by_cases h0 : o = 0
      · subst h0
        rw [show sweepLoop b v acc (0 :: rest) = sweepLoop b v acc rest by
              simp [sweepLoop]]
        exact ih acc hacc
      · by_cases hr : 0 ≤ (v : Int) + o ∧ (v : Int) + o < 4294967296
        · by_cases he : (reverse_dns b (ipToString ((v : Int) + o).toNat)).isEmpty
          · rw [show sweepLoop b v acc (o :: rest) = sweepLoop b v acc rest by
                  simp [sweepLoop, h0, hr, he]]
            exact ih acc hacc
          · have hne : reverse_dns b (ipToString ((v : Int) + o).toNat) ≠ [] := by
              intro hh
              rw [hh] at he
              exact he rfl
            rw [show sweepLoop b v acc (o :: rest)
                = sweepLoop b v
                    (dictInsert acc (ipToString ((v : Int) + o).toNat)
                      (reverse_dns b (ipToString ((v : Int) + o).toNat))) rest by
                  simp [sweepLoop, h0, hr, he]]
            refine ih _ ?_
            intro k rev h
            rw [lookupD_dictInsert] at h
            by_cases hk : k = ipToString ((v : Int) + o).toNat
            · rw [if_pos hk] at h
              obtain rfl : reverse_dns b (ipToString ((v : Int) + o).toNat) = rev :=
                Option.some.inj h
              subst hk
              exact ⟨rfl, hne⟩
            · rw [if_neg hk] at h
              exact hacc k rev h
        · rw [show sweepLoop b v acc (o :: rest) = sweepLoop b v acc rest by
                simp [sweepLoop, h0, hr]]
          exact ih acc hacc

theorem scan_ip_neighbors_values (b : Backend) (ip : String) (r : Nat) :
    ∀ k rev, lookupD (scan_ip_neighbors b ip r) k = some rev →
      rev = reverse_dns b k ∧ rev ≠ [] := by
  unfold scan_ip_neighbors
  cases h : parseIPv4 ip with
  | none => intro k rev hk; simp [lookupD] at hk
  | some v =>
      exact sweepLoop_values b v (offsets r) [] (by intro k rev hk; simp [lookupD] at hk)

theorem neighborsLoop_values (b : Backend) (l : List String)
    (acc : List (String × List (String × List String)))
    (hacc : ∀ k nb, lookupD acc k = some nb → nb = scan_ip_neighbors b k 5) :
    ∀ k nb, lookupD (neighborsLoop b acc l) k = some nb →
      nb = scan_ip_neighbors b k 5 := by
  induction l generalizing acc with
  | nil => exact hacc
  | cons ip rest ih =>
      rw [show neighborsLoop b acc (ip :: rest)
          = neighborsLoop b (dictInsert acc ip (scan_ip_neighbors b ip 5)) rest from rfl]
      refine ih _ ?_
      intro k nb h
      rw [lookupD_dictInsert] at h
      by_cases hk : k = ip
      · rw [if_pos hk] at h
        subst hk
        exact (Option.some.inj h).symm
      · rw [if_neg hk] at h
        exact hacc k nb h

theorem mem_keysD_enumLoop (b : Backend) (dom : String) (l : List String)
    (acc : List (String × List String)) (key : String) :
    key ∈ keysD (enumLoop b dom acc l) ↔
      key ∈ keysD acc ∨
        ∃ sub ∈ l, key = sub ++ "." ++ dom ∧ ∃ ips, b.queryA key = .ok ips := by
  induction l generalizing acc with
  | nil => simp [enumLoop]
  | cons sub rest ih =>
      cases hq : b.queryA (sub ++ "." ++ dom) with
      | ok answers =>
          rw [show enumLoop b dom acc (sub :: rest)
              = enumLoop b dom (dictInsert acc (sub ++ "." ++ dom) answers) rest by
                simp [enumLoop, hq]]
          rw [ih, mem_keysD_dictInsert]
          simp only [List.mem_cons]
          by_cases hk : key = sub ++ "." ++ dom
          · constructor
            · intro _
              exact Or.inr ⟨sub, Or.inl rfl, hk, answers, hk ▸ hq⟩
            · intro _
              exact Or.inl (Or.inl hk)
          · constructor
            · rintro ((hk' | hacc') | ⟨sub', hsub', hkey, hok⟩)
              · exact absurd hk' hk
              · exact Or.inl hacc'
              · exact Or.inr ⟨sub', Or.inr hsub', hkey, hok⟩
            · rintro (hacc' | ⟨sub', rfl | hsub', hkey, hok⟩)
              · exact Or.inl (Or.inr hacc')
              · exact absurd hkey hk
              · exact Or.inr ⟨sub', hsub', hkey, hok⟩
      | error e =>
          rw [show enumLoop b dom acc (sub :: rest) = enumLoop b dom acc rest by
                simp [enumLoop, hq]]
          rw [ih]
          simp only [List.mem_cons]
          constructor
          · rintro (hacc' | ⟨sub', hsub', hkey, hok⟩)
            · exact Or.inl hacc'
            · exact Or.inr ⟨sub', Or.inr hsub', hkey, hok⟩
          · rintro (hacc' | ⟨sub', rfl | hsub', hkey, hok⟩)
            · exact Or.inl hacc'
            · rw [hkey] at hok
              obtain ⟨ips, hips⟩ := hok
              rw [hq] at hips
              exact absurd hips (by simp)
            · exact Or.inr ⟨sub', hsub', hkey, hok⟩

theorem enumLoop_values (b : Backend) (dom : String) (l : List String)
    (acc : List (String × List String))
    (hacc : ∀ key ips, lookupD acc key = some ips → b.queryA key = .ok ips) :
    ∀ key ips, lookupD (enumLoop b dom acc l) key = some ips →
      b.queryA key = .ok ips := by
  induction l generalizing acc with
  | nil => exact hacc
  | cons sub rest ih =>
      cases hq : b.queryA (sub ++ "." ++ dom) with
      | ok answers =>
          rw [show enumLoop b dom acc (sub :: rest)
              = enumLoop b dom (dictInsert acc (sub ++ "." ++ dom) answers) rest by
                simp [enumLoop, hq]]
          refine ih _ ?_
          intro key ips h
          rw [lookupD_dictInsert] at h
          by_cases hk : key = sub ++ "." ++ dom
          · rw [if_pos hk] at h
            obtain rfl := Option.some.inj h
            rw [hk]
            exact hq
          · rw [if_neg hk] at h
            exact hacc key ips h
      | error e =>
          rw [show enumLoop b dom acc (sub :: rest) = enumLoop b dom acc rest by
                simp [enumLoop, hq]]
          exact ih acc hacc

theorem scan_eq (b : Backend) (m : Mapper) :
    scan b m =
      ⟨m.domain,
       ⟨updOptWith id (b.queryA m.domain) m.results.A,
        updOptWith (List.map rstripDot) (b.queryMX m.domain) m.results.MX,
        updOptWith (List.map rstripDot) (b.queryNS m.domain) m.results.NS,
        updTxt (b.queryTXT m.domain) m.results.TXT,
        updNb b (updOptWith id (b.queryA m.domain) m.results.A) m.results.neighbors,
        some (enumLoop b m.domain [] common_subdomains)⟩⟩ := by
  obtain ⟨dom, A0, M0, N0, T0, nb0, sd0⟩ := m
  unfold scan resolve_a resolve_mx resolve_ns resolve_txt enumerate_subdomains
  cases hA : b.queryA dom with
  | ok answers =>
      cases answers <;> cases hM : b.queryMX dom <;> cases hN : b.queryNS dom <;>
        cases hT : b.queryTXT dom <;>
        simp [updOptWith, updTxt, updNb, hA, hM, hN, hT]
  | error e =>
      cases A0 with
      | none =>
          cases hM : b.queryMX dom <;> cases hN : b.queryNS dom <;>
            cases hT : b.queryTXT dom <;>
            simp [updOptWith, updTxt, updNb, hA, hM, hN, hT]
      | some ips =>
          cases ips <;> cases hM : b.queryMX dom <;> cases hN : b.queryNS dom <;>
            cases hT : b.queryTXT dom <;>
            simp [updOptWith, updTxt, updNb, hA, hM, hN, hT]

theorem updOptWith_idem (f : List String → List String) (q : Except DnsFail (List String))
    (x : Option (List String)) :
    updOptWith f q (updOptWith f q x) = updOptWith f q x := by
  cases q <;> rfl

theorem updTxt_idem (q : Except DnsFail (List (List String))) (x : Option (List String)) :
    updTxt q (updTxt q x) = updTxt q x := by
  cases q <;> rfl

theorem updNb_idem (b : Backend) (a : Option (List String))
    (x : Option (List (String × List (String × List String)))) :
    updNb b a (updNb b a x) = updNb b a x := by
  cases a with
  | none => rfl
  | some ips => cases ips <;> rfl

theorem dropWhile_dot_reverse (l : List Char) (h : l.getLast? ≠ some '.') :
    l.reverse.dropWhile (fun c => c == '.') = l.reverse := by
  cases hl : l.reverse with
  | nil => simp
  | cons a t =>
      have ha : l.getLast? = some a := by
        rw [← List.head?_reverse, hl]
        rfl
      have ha' : ¬a = '.' := by
        intro hh
        exact h (hh ▸ ha)
      simp [List.dropWhile_cons, ha']

theorem rstripDot_of_not_trailing (s : String) (h : hasTrailingDot s = false) :
    rstripDot s = s := by
  obtain ⟨l⟩ := s
  have h' : l.getLast? ≠ some '.' := by
    simpa [hasTrailingDot] using h
  simp [rstripDot, dropWhile_dot_reverse l h']

theorem rstripDot_append_dot (s : String) (h : hasTrailingDot s = false) :
    rstripDot (s ++ ".") = s := by
  obtain ⟨l⟩ := s
  have h' : l.getLast? ≠ some '.' := by
    simpa [hasTrailingDot] using h
  have hd : (String.mk l ++ ".").data = l ++ ['.'] := by
    rw [String.data_append]
  simp [rstripDot, hd, List.dropWhile_cons, dropWhile_dot_reverse l h']

/-! ### Claim theorems -/

/-- C1: for every record kind (A, MX, NS, TXT) and every resolver outcome in
the failure taxonomy, the corresponding lookup operation returns an empty
list and leaves the mapper untouched; no exception propagates (each
`resolve` function is total, returning a plain pair). -/
theorem claim_lookup_failures_empty (b : Backend) (m : Mapper) (e₁ e₂ e₃ e₄ : DnsFail)
    (hA : b.queryA m.domain = .error e₁) (hMX : b.queryMX m.domain = .error e₂)
    (hNS : b.queryNS m.domain = .error e₃) (hTXT : b.queryTXT m.domain = .error e₄) :
    (resolve_a b m).2 = [] ∧ (resolve_mx b m).2 = [] ∧
    (resolve_ns b m).2 = [] ∧ (resolve_txt b m).2 = [] ∧
    (resolve_a b m).1 = m ∧ (resolve_mx b m).1 = m ∧
    (resolve_ns b m).1 = m ∧ (resolve_txt b m).1 = m := by
  simp [resolve_a, resolve_mx, resolve_ns, resolve_txt, hA, hMX, hNS, hTXT]

/-- Witness for C1 at a concrete backend failing with a different taxonomy
member per kind. -/
theorem claim_lookup_failures_empty_witness :
    (resolve_a failB (mkMapper "example.com")).2 = [] ∧
    (resolve_mx failB (mkMapper "example.com")).2 = [] ∧
    (resolve_ns failB (mkMapper "example.com")).2 = [] ∧
    (resolve_txt failB (mkMapper "example.com")).2 = [] ∧
    (resolve_a failB (mkMapper "example.com")).1 = mkMapper "example.com" ∧
    (resolve_mx failB (mkMapper "example.com")).1 = mkMapper "example.com" ∧
    (resolve_ns failB (mkMapper "example.com")).1 = mkMapper "example.com" ∧
    (resolve_txt failB (mkMapper "example.com")).1 = mkMapper "example.com" :=
  claim_lookup_failures_empty failB (mkMapper "example.com")
    .nxdomain .noAnswer .timeout .protocolError rfl rfl rfl rfl

/-- C2 counterexample: after a completed scan in which every lookup failed,
none of the four record-kind keys is present in the Result Model (the code
only writes a kind's key on lookup success), refuting "always contains an
entry for each of the four top-level Record Set kinds". -/
theorem claim_result_model_keys_counterexample :
    (scan failB (mkMapper "example.com")).results.A = none ∧
    (scan failB (mkMapper "example.com")).results.MX = none ∧
    (scan failB (mkMapper "example.com")).results.NS = none ∧
    (scan failB (mkMapper "example.com")).results.TXT = none := by
  refine ⟨rfl, rfl, rfl, rfl⟩

/-- C2 (amended): after a completed scan on a fresh mapper, a record-kind
key is present if and only if that kind's lookup succeeded (absent on
failure); the subdomain aggregate is always present (possibly empty); the
neighbor aggregate is present exactly when the address lookup yielded a
non-empty list; and every Subdomain Map entry and every inner Neighbor Map
entry is non-empty.  The hypothesis `hwf` models the resolver contract that
a successful answer always carries at least one record (otherwise the
library raises NoAnswer). -/
theorem claim_result_model_presence (b : Backend) (dom : String)
    (hwf : ∀ n l, b.queryA n = .ok l → l ≠ []) :
    ((scan b (mkMapper dom)).results.A.isSome ↔ ∃ l, b.queryA dom = .ok l) ∧
    ((scan b (mkMapper dom)).results.MX.isSome ↔ ∃ l, b.queryMX dom = .ok l) ∧
    ((scan b (mkMapper dom)).results.NS.isSome ↔ ∃ l, b.queryNS dom = .ok l) ∧
    ((scan b (mkMapper dom)).results.TXT.isSome ↔ ∃ l, b.queryTXT dom = .ok l) ∧
    (scan b (mkMapper dom)).results.subdomains.isSome ∧
    ((scan b (mkMapper dom)).results.neighbors.isSome ↔
      ∃ l, b.queryA dom = .ok l ∧ l ≠ []) ∧
    (∀ sd ips,
      lookupD ((scan b (mkMapper dom)).results.subdomains.getD []) sd = some ips →
        ips ≠ []) ∧
    (∀ base nb,
      lookupD ((scan b (mkMapper dom)).results.neighbors.getD []) base = some nb →
        ∀ nip rev, lookupD nb nip = some rev → rev ≠ []) := by
  rw [scan_eq]
  refine ⟨?_, ?_, ?_, ?_, ?_, ?_, ?_, ?_⟩
  · rcases hA : b.queryA dom <;> simp [updOptWith, hA, mkMapper, emptyResults]
  · rcases hM : b.queryMX dom <;> simp [updOptWith, hM, mkMapper, emptyResults]
  · rcases hN : b.queryNS dom <;> simp [updOptWith, hN, mkMapper, emptyResults]
  · rcases hT : b.queryTXT dom <;> simp [updTxt, hT, mkMapper, emptyResults]
  · simp
  · rcases hA : b.queryA dom with _ | e
    · rename_i l
      cases l <;> simp [updOptWith, updNb, hA, mkMapper, emptyResults]
    · simp [updOptWith, updNb, hA, mkMapper, emptyResults]
  · intro sd ips h
    have hok := enumLoop_values b dom common_subdomains []
      (by intro k i hh; simp [lookupD] at hh) sd ips h
    exact hwf _ _ hok
  · simp only [mkMapper, emptyResults]
    intro base nb h nip rev hrev
    rcases hA : b.queryA dom with e | l
    · rw [hA] at h
      simp [updOptWith, updNb, lookupD] at h
    · rw [hA] at h
      cases l with
      | nil => simp [updOptWith, updNb, lookupD] at h
      | cons a as =>
          simp only [updOptWith, updNb] at h
          simp [lookupD] at h
          have hnb := neighborsLoop_values b (a :: as) []
            (by intro k n hh; simp [lookupD] at hh) base nb h
          exact (scan_ip_neighbors_values b base 5 nip rev (hnb ▸ hrev)).2

/-- Witness for the amended C2: the failing backend vacuously satisfies the
resolver contract; no kind key is present and the subdomain aggregate is. -/
theorem claim_result_model_presence_witness :
    ¬(scan failB (mkMapper "example.com")).results.A.isSome = true ∧
    (scan failB (mkMapper "example.com")).results.subdomains.isSome = true := by
  have h := claim_result_model_presence failB "example.com"
    (by intro n l hl; simp [failB] at hl)
  refine ⟨?_, h.2.2.2.2.1⟩
  intro hs
  obtain ⟨l, hl⟩ := h.1.mp hs
  simp [failB] at hl

/-- C3: the Neighbor Sweep probes exactly the addresses at integer offsets
in [-r, r] excluding 0 from the base (for the spec's example, radius 2 from
198.51.100.10 probes exactly .8, .9, .11, .12 and never the base), and an
address is a key of the returned mapping iff it was probed and its reverse
lookup returned a non-empty result. -/
theorem claim_neighbor_sweep_probes :
    (neighborProbes "198.51.100.10" 2
      = ["198.51.100.8", "198.51.100.9", "198.51.100.11", "198.51.100.12"]) ∧
    ("198.51.100.10" ∉ neighborProbes "198.51.100.10" 2) ∧
    (∀ ip v r, parseIPv4 ip = some v → ∀ a,
      a ∈ neighborProbes ip r ↔
        ∃ o : Int, -(r : Int) ≤ o ∧ o ≤ (r : Int) ∧ o ≠ 0 ∧
          0 ≤ (v : Int) + o ∧ (v : Int) + o < 4294967296 ∧
          a = ipToString ((v : Int) + o).toNat) ∧
    (∀ b ip r a, a ∈ keysD (scan_ip_neighbors b ip r) ↔
      a ∈ neighborProbes ip r ∧ reverse_dns b a ≠ []) := by
  refine ⟨by decide, by decide, ?_, mem_keysD_scan_ip_neighbors⟩
  intro ip v r hip a
  unfold neighborProbes
  rw [hip, mem_probesLoop]
  constructor
  · rintro ⟨o, ho, h0, h1, h2, he⟩
    have hb := (mem_offsets r o).mp ho
    exact ⟨o, hb.1, hb.2, h0, h1, h2, he⟩
  · rintro ⟨o, hlo, hhi, h0, h1, h2, he⟩
    exact ⟨o, (mem_offsets r o).mpr ⟨hlo, hhi⟩, h0, h1, h2, he⟩

/-- Witness for C3: a probed neighbor of the spec's example obtained through
the offset characterisation at offset -2. -/
theorem claim_neighbor_sweep_probes_witness :
    "198.51.100.8" ∈ neighborProbes "198.51.100.10" 2 := by
  have h := claim_neighbor_sweep_probes.2.2.1 "198.51.100.10" 3325256714 2 rfl
    "198.51.100.8"
  exact h.mpr ⟨-2, by decide, by decide, by decide, by decide, by decide, by decide⟩

/-- C4: for every target and candidate dictionary, the Subdomain Sweep forms
label.Target per label, looks up an address record, and retains the
candidate as a key (mapped to its address list) iff the lookup returns a
non-empty Record Set.  `hwf` is the resolver contract that a successful
answer is non-empty (dnspython raises NoAnswer on an empty answer section);
the last conjunct ties the parametrised loop to the method, whose dictionary
is the literal `common_subdomains`. -/
theorem claim_subdomain_sweep (b : Backend) (dom : String)
    (hwf : ∀ n l, b.queryA n = .ok l → l ≠ []) (labels : List String) :
    (∀ key, key ∈ keysD (enumLoop b dom [] labels) ↔
      ∃ sub ∈ labels, key = sub ++ "." ++ dom ∧
        ∃ ips, b.queryA key = .ok ips ∧ ips ≠ []) ∧
    (∀ key ips, lookupD (enumLoop b dom [] labels) key = some ips →
      b.queryA key = .ok ips ∧ ips ≠ []) ∧
    enumerate_subdomains b ⟨dom, emptyResults⟩ = enumLoop b dom [] common_subdomains := by
  refine ⟨?_, ?_, rfl⟩
  · intro key
    rw [mem_keysD_enumLoop]
    constructor
    · rintro (hacc | ⟨sub, hsub, hkey, ips, hok⟩)
      · simp [keysD] at hacc
      · exact ⟨sub, hsub, hkey, ips, hok, hwf _ _ hok⟩
    · rintro ⟨sub, hsub, hkey, ips, hok, hne⟩
      exact Or.inr ⟨sub, hsub, hkey, ips, hok⟩
  · intro key ips h
    have hok := enumLoop_values b dom labels []
      (by intro k i hh; simp [lookupD] at hh) key ips h
    exact ⟨hok, hwf _ _ hok⟩

/-- Witness for C4 instantiating the spec's example: over the dictionary
["www", "api"] on a backend where only www.example.com resolves, the sweep
yields exactly one entry and api.example.com is absent. -/
theorem claim_subdomain_sweep_witness :
    enumLoop c4B "example.com" [] ["www", "api"]
      = [("www.example.com", ["203.0.113.5"])] ∧
    "www.example.com" ∈ keysD (enumLoop c4B "example.com" [] ["www", "api"]) ∧
    "api.example.com" ∉ keysD (enumLoop c4B "example.com" [] ["www", "api"]) := by
  have h := claim_subdomain_sweep c4B "example.com"
    (by
      intro n l hl
      simp only [c4B] at hl
      by_cases hn : n = "www.example.com"
      · rw [if_pos hn] at hl
        obtain rfl := Except.ok.inj hl
        decide
      · rw [if_neg hn] at hl
        exact absurd hl (by simp))
    ["www", "api"]
  refine ⟨by decide, ?_, ?_⟩
  · exact (h.1 "www.example.com").mpr
      ⟨"www", by decide, rfl, ["203.0.113.5"], rfl, by decide⟩
  · intro hmem
    obtain ⟨sub, hsub, hkey, ips, hok, hne⟩ := (h.1 "api.example.com").mp hmem
    have hsub' : sub = "www" ∨ sub = "api" := by simpa using hsub
    rcases hsub' with rfl | rfl
    · exact absurd hkey (by decide)
    · rw [show c4B.queryA "api.example.com" = .error .nxdomain from rfl] at hok
      exact absurd hok (by simp)

/-- C5: exactly one trailing root-label dot is stripped from each
name-valued result of the MX, NS and reverse (PTR) lookups — a raw name with
one trailing dot loses exactly that dot, a name without a trailing dot is
returned unchanged — and those three lookups return precisely their raw
answers mapped through the stripping function. -/
theorem claim_trailing_dot_strip :
    (∀ s : String, hasTrailingDot s = false →
      rstripDot (s ++ ".") = s ∧ rstripDot s = s) ∧
    (∀ b m (raws : List String), b.queryMX m.domain = .ok raws →
      (resolve_mx b m).2 = raws.map rstripDot) ∧
    (∀ b m (raws : List String), b.queryNS m.domain = .ok raws →
      (resolve_ns b m).2 = raws.map rstripDot) ∧
    (∀ (b : Backend) ip v (raws : List String), parseIPv4 ip = some v →
      b.queryPTR ip = .ok raws → reverse_dns b ip = raws.map rstripDot) := by
  refine ⟨?_, ?_, ?_, ?_⟩
  · intro s hs
    exact ⟨rstripDot_append_dot s hs, rstripDot_of_not_trailing s hs⟩
  · intro b m raws h
    simp [resolve_mx, h]
  · intro b m raws h
    simp [resolve_ns, h]
  · intro b ip v raws hip h
    simp [reverse_dns, hip, h]

/-- Witness for C5 on the spec's example name. -/
theorem claim_trailing_dot_strip_witness :
    rstripDot ("mail.example.com" ++ ".") = "mail.example.com" ∧
    rstripDot "mail.example.com" = "mail.example.com" :=
  claim_trailing_dot_strip.1 "mail.example.com" (by decide)

/-- C6: the TXT lookup concatenates the constituent segments of each single
TXT record, in order, into one string per record — never separate entries,
so the number of returned strings equals the number of records. -/
theorem claim_txt_segments_joined (b : Backend) (m : Mapper)
    (segss : List (List String)) (h : b.queryTXT m.domain = .ok segss) :
    (resolve_txt b m).2 = segss.map (fun segs => String.join segs) ∧
    (resolve_txt b m).2.length = segss.length := by
  simp [resolve_txt, h]

/-- Witness for C6: the spec's three-segment SPF record comes back as the
single concatenated string. -/
theorem claim_txt_segments_joined_witness :
    (resolve_txt txtB (mkMapper "example.com")).2
      = ["v=spf1 include:_spf.example.com ~all"] := by
  have h := claim_txt_segments_joined txtB (mkMapper "example.com")
    [["v=spf1 ", "include:_spf.example.com ", "~all"]] rfl
  rw [h.1]
  decide

/-- C7: at the edge of the 32-bit space (base 0.0.0.1, radius 5) the sweep
skips each computed neighbor outside the valid range — only six of the ten
offsets survive — never raises (it is a total function), and still returns
a mapping whose keys are exactly the valid neighbors with non-empty reverse
lookups, for every backend. -/
theorem claim_neighbor_sweep_boundary (b : Backend) :
    neighborProbes "0.0.0.1" 5
      = ["0.0.0.0", "0.0.0.2", "0.0.0.3", "0.0.0.4", "0.0.0.5", "0.0.0.6"] ∧
    (∀ a, a ∈ keysD (scan_ip_neighbors b "0.0.0.1" 5) ↔
      a ∈ ["0.0.0.0", "0.0.0.2", "0.0.0.3", "0.0.0.4", "0.0.0.5", "0.0.0.6"] ∧
        reverse_dns b a ≠ []) := by
  have hp : neighborProbes "0.0.0.1" 5
      = ["0.0.0.0", "0.0.0.2", "0.0.0.3", "0.0.0.4", "0.0.0.5", "0.0.0.6"] := by
    decide
  refine ⟨hp, ?_⟩
  intro a
  rw [mem_keysD_scan_ip_neighbors, hp]

/-- C8: end-to-end scan on the backend with exactly one address, one mail
exchange, one nameserver and one text record, where every subdomain
candidate and every reverse lookup fails: all four Record Sets have length
one, the Subdomain Map is empty, and the Neighbor Map has exactly one key
(the discovered address) mapping to an empty map. -/
theorem claim_scan_end_to_end :
    (scan e2eB (mkMapper "example.com")).results =
      ⟨some ["203.0.113.5"], some ["mail.example.com"], some ["ns1.example.com"],
       some ["v=spf1 ~all"], some [("203.0.113.5", [])], some []⟩ := by
  decide

/-- C9: scanning twice on the same mapper instance against the same (static,
pure) backend yields exactly the state one scan produces. -/
theorem claim_scan_idempotent (b : Backend) (m : Mapper) :
    scan b (scan b m) = scan b m := by
  rw [scan_eq b m, scan_eq]
  simp [updOptWith_idem, updTxt_idem, updNb_idem]

/-- C10: on a base string that is not a parsable IPv4 address the neighbor
sweep returns the empty mapping and performs no reverse lookup at all (its
probe trace is empty); it is a total function of the backend and its inputs
and, by its type, never touches the Result Model. -/
theorem claim_invalid_base_empty (b : Backend) (ip : String) (r : Nat)
    (h : parseIPv4 ip = none) :
    scan_ip_neighbors b ip r = [] ∧ neighborProbes ip r = [] := by
  unfold scan_ip_neighbors neighborProbes
  rw [h]
  exact ⟨rfl, rfl⟩

/-- Witness for C10 at a concrete unparsable input. -/
theorem claim_invalid_base_empty_witness :
    scan_ip_neighbors failB "notanip" 5 = [] ∧ neighborProbes "notanip" 5 = [] :=
  claim_invalid_base_empty failB "notanip" 5 rfl
